import Mathlib

/-!
Verification development for the usernaut identity/group-membership
reconciler.  The Go source is shallowly embedded: JSON-serialized cache
values become an inductive `CVal`, the cache becomes an association list,
store operations and the periodic offboarding job become pure functions
returning `Except` results together with explicit call traces.
-/

set_option autoImplicit false

namespace Usernaut

/-- Association-list lookup: first pair whose key equals `k` (models a Go
map read / redis GET on a finite state). -/
def lookupA {α : Type} : List (String × α) → String → Option α
  | [], _ => none
  | (k', v) :: t, k => if k' = k then some v else lookupA t k

/-- Association-list update: replaces the first binding of `k`, or appends
one (models a Go map write / redis SET). -/
def setA {α : Type} : List (String × α) → String → α → List (String × α)
  | [], k, v => [(k, v)]
  | (k', v') :: t, k, v => if k' = k then (k, v) :: t else (k', v') :: setA t k v

/-- Association-list deletion of every binding of `k` (models Go `delete`
on a map / redis DEL). -/
def eraseA {α : Type} : List (String × α) → String → List (String × α)
  | [], _ => []
  | (k', v') :: t, k => if k' = k then eraseA t k else (k', v') :: eraseA t k

@[simp] theorem lookupA_nil {α : Type} (k : String) : lookupA ([] : List (String × α)) k = none := rfl

theorem lookupA_setA_self {α : Type} (l : List (String × α)) (k : String) (v : α) :
    lookupA (setA l k v) k = some v := by
  induction l with
  | nil => simp [setA, lookupA]
  | cons hd t ih =>
    obtain ⟨k', v'⟩ := hd
    by_cases h : k' = k <;> simp [setA, lookupA, h, ih]

theorem lookupA_setA_ne {α : Type} (l : List (String × α)) (k k' : String) (v : α)
    (h : k ≠ k') : lookupA (setA l k v) k' = lookupA l k' := by
  induction l with
  | nil => simp [setA, lookupA, h]
  | cons hd t ih =>
    obtain ⟨k₀, v₀⟩ := hd
    by_cases h₀ : k₀ = k
    · subst h₀
      simp [setA, lookupA, h]
    · simp only [setA, if_neg h₀]
      by_cases h₁ : k₀ = k' <;> simp [lookupA, h₁, ih]

theorem lookupA_eraseA_self {α : Type} (l : List (String × α)) (k : String) :
    lookupA (eraseA l k) k = none := by
  induction l with
  | nil => simp [eraseA]
  | cons hd t ih =>
    obtain ⟨k', v'⟩ := hd
    by_cases h : k' = k <;> simp [eraseA, lookupA, h, ih]

theorem lookupA_eraseA_ne {α : Type} (l : List (String × α)) (k k' : String)
    (h : k ≠ k') : lookupA (eraseA l k) k' = lookupA l k' := by
  induction l with
  | nil => simp [eraseA]
  | cons hd t ih =>
    obtain ⟨k₀, v₀⟩ := hd
    by_cases h₀ : k₀ = k
    · subst h₀
      have hne : k₀ ≠ k' := fun hk => h (hk ▸ rfl)
      simp [eraseA, lookupA, hne, ih]
    · by_cases h₁ : k₀ = k'
      · subst h₁
        simp [eraseA, lookupA, h₀, Ne.symm h]
      · simp [eraseA, lookupA, h₀, h₁, ih]

/-- Every pair of `setA l k v` is either a pair of `l` or the new pair. -/
theorem mem_setA {α : Type} {l : List (String × α)} {k : String} {v : α}
    {p : String × α} (hp : p ∈ setA l k v) : p ∈ l ∨ p = (k, v) := by
  induction l with
  | nil => simp [setA] at hp; right; exact hp
  | cons hd t ih =>
    obtain ⟨k', v'⟩ := hd
    by_cases h : k' = k
    · simp [setA, h] at hp
      rcases hp with hp | hp
      · right; exact hp
      · left; exact List.mem_cons_of_mem _ hp
    · simp only [setA, if_neg h, List.mem_cons] at hp
      rcases hp with hp | hp
      · left; exact hp ▸ List.mem_cons_self _ _
      · rcases ih hp with h' | h'
        · left; exact List.mem_cons_of_mem _ h'
        · right; exact h'

/-- Resolved user record.  Modelled from the spec: `structs.User` itself is
not under src (only its field uses are); §3 of the spec lists the fields
`id, email, username, firstName, lastName, displayName, role`. -/
structure User where
  id : String
  email : String
  userName : String
  firstName : String
  lastName : String
  displayName : String
  role : String
  deriving Repr, DecidableEq

/-- The all-empty user value, i.e. the Go zero value of `structs.User`. -/
def User.zero : User := ⟨"", "", "", "", "", "", ""⟩

/-- Backend metadata stored for a group (`BackendInfo` in
`pkg/store/group_store.go`). -/
structure BackendInfo where
  id : String
  name : String
  btype : String
  deriving Repr, DecidableEq

/-- Consolidated data stored for a group (`GroupData` in
`pkg/store/group_store.go`); the Go map of backends is embedded as an
association list. -/
structure GroupData where
  members : List String
  backends : List (String × BackendInfo)
  deriving Repr, DecidableEq

/-- The JSON field pairs of a marshalled `User` object, with the field
names from §3 of the spec (used to model Go `json.Unmarshal` between a
user object and a `map[string]string`). -/
def userFieldPairs (u : User) : List (String × String) :=
  [("id", u.id), ("email", u.email), ("username", u.userName),
   ("firstName", u.firstName), ("lastName", u.lastName),
   ("displayName", u.displayName), ("role", u.role)]

/-- A JSON-serialized cache value.  The Go code stores JSON strings in the
cache; this inductive captures the shapes the program actually writes:
string arrays (user lists, group lists), string-to-string objects
(per-user / per-team backend maps), user objects and group objects. -/
inductive CVal where
  | jstrList : List String → CVal
  | jstrMap : List (String × String) → CVal
  | juser : User → CVal
  | jgroup : GroupData → CVal
  deriving Repr, DecidableEq

/-- Cache state.  Modelled from the spec: the cache contract (§6) with
`Get` failing on a missing key, `Set` overwriting and `Delete` removing;
both backing implementations are outside src. -/
def Cache : Type := List (String × CVal)

/-- Cache read: `none` models the Go `Get` returning an error for a
missing key. -/
def cacheGet (c : Cache) (k : String) : Option CVal := lookupA c k

def cacheSet (c : Cache) (k : String) (v : CVal) : Cache := setA c k v

def cacheDelete (c : Cache) (k : String) : Cache := eraseA c k

/-- Go `json.Unmarshal` of a stored value into `[]string`: only a string
array succeeds (objects fail with a type error). -/
def unmarshalStrList : CVal → Option (List String)
  | .jstrList l => some l
  | _ => none

/-- Go `json.Unmarshal` of a stored value into `map[string]string`: a
string object succeeds as-is and a user object succeeds with its string
fields; arrays and group objects (non-string values) fail. -/
def unmarshalStrMap : CVal → Option (List (String × String))
  | .jstrMap m => some m
  | .juser u => some (userFieldPairs u)
  | _ => none

/-- Go `json.Unmarshal` of a stored value into `structs.User`: a user
object decodes to itself; any other JSON object decodes field-wise,
ignoring unknown keys (so a backend map fills only keys that coincide
with user field names, and a group object yields the zero user); an
array fails. -/
def unmarshalUser : CVal → Option User
  | .juser u => some u
  | .jstrMap m =>
      some { id := (lookupA m "id").getD ""
             email := (lookupA m "email").getD ""
             userName := (lookupA m "username").getD ""
             firstName := (lookupA m "firstName").getD ""
             lastName := (lookupA m "lastName").getD ""
             displayName := (lookupA m "displayName").getD ""
             role := (lookupA m "role").getD "" }
  | .jgroup _ => some User.zero
  | .jstrList _ => none

/-- Go `json.Unmarshal` of a stored value into `GroupData`: a group object
decodes to itself; a user object has no `members`/`backends` keys and
yields the zero `GroupData`; a string object succeeds (as zero) only when
it has no key colliding at the wrong type; an array fails. -/
def unmarshalGroup : CVal → Option GroupData
  | .jgroup d => some d
  | .juser _ => some ⟨[], []⟩
  | .jstrMap m =>
      if lookupA m "members" = none ∧ lookupA m "backends" = none then
        some ⟨[], []⟩
      else none
  | .jstrList _ => none

/-! ## Store layer (`pkg/store`) -/

/-- Composite backend key `backendName_backendType`
(`backendKey` in `pkg/store/group_store.go`). -/
def backendKeyOf (backendName backendType : String) : String :=
  backendName ++ "_" ++ backendType

/-- `GroupStore.Get`: missing key yields empty `GroupData` with nil error;
an unmarshal failure is a real error. -/
def groupStoreGet (c : Cache) (groupName : String) : Except String GroupData :=
  match cacheGet c ("group:" ++ groupName) with
  | none => .ok ⟨[], []⟩
  | some v =>
    match unmarshalGroup v with
    | none => .error "failed to unmarshal group data"
    | some d => .ok d

/-- `GroupStore.Set`: marshals the data and stores it under
`group:<name>` (marshalling and the cache write cannot fail in the
model). -/
def groupStoreSet (c : Cache) (groupName : String) (d : GroupData) : Cache :=
  cacheSet c ("group:" ++ groupName) (.jgroup d)

/-- `UserStore.GetBackends`: missing key yields an empty map with nil
error. -/
def userStoreGetBackends (c : Cache) (email : String) : Except String (List (String × String)) :=
  match cacheGet c ("user:" ++ email) with
  | none => .ok []
  | some v =>
    match unmarshalStrMap v with
    | none => .error "failed to unmarshal user backends"
    | some m => .ok m

/-- `deleteBackendHelper` of `pkg/store`: removes one backend binding from
the entity record at `key`; writes the rest back when non-empty,
otherwise deletes the whole entry. -/
def deleteBackendHelper (c : Cache) (key backendKey : String) : Except String Cache :=
  match cacheGet c key with
  | none => .ok c
  | some v =>
    match unmarshalStrMap v with
    | none => .error "failed to unmarshal backends"
    | some m =>
      let m' := eraseA m backendKey
      if 0 < m'.length then .ok (cacheSet c key (.jstrMap m'))
      else .ok (cacheDelete c key)

/-- `UserStore.DeleteBackend`. -/
def userStoreDeleteBackend (c : Cache) (email backendKey : String) : Except String Cache :=
  deleteBackendHelper c ("user:" ++ email) backendKey

/-- `TeamStore.DeleteBackend`. -/
def teamStoreDeleteBackend (c : Cache) (teamName backendKey : String) : Except String Cache :=
  deleteBackendHelper c ("team:" ++ teamName) backendKey

/-- `UserGroupsStore.GetGroups`: missing key yields an empty slice with
nil error. -/
def userGroupsGetGroups (c : Cache) (email : String) : Except String (List String) :=
  match cacheGet c ("user:groups:" ++ email) with
  | none => .ok []
  | some v =>
    match unmarshalStrList v with
    | none => .error "failed to unmarshal user groups"
    | some l => .ok l

/-- `UserGroupsStore.RemoveGroup`: filters one group out of the user's
group list; deletes the entry when the remainder is empty, is a no-op
when the list was already empty. -/
def userGroupsRemoveGroup (c : Cache) (email groupName : String) : Except String Cache :=
  match userGroupsGetGroups c email with
  | .error e => .error e
  | .ok groups =>
    if groups.isEmpty then .ok c
    else
      let newGroups := groups.filter (fun g => g ≠ groupName)
      if newGroups.isEmpty then .ok (cacheDelete c ("user:groups:" ++ email))
      else .ok (cacheSet c ("user:groups:" ++ email) (.jstrList newGroups))

/-- `MetaStore.GetUserList`: reads `meta:user_list`; a missing key yields
an empty slice with nil error. -/
def metaGetUserList (c : Cache) : Except String (List String) :=
  match cacheGet c "meta:user_list" with
  | none => .ok []
  | some v =>
    match unmarshalStrList v with
    | none => .error "failed to unmarshal user list"
    | some l => .ok l

/-- `MetaStore.SetUserList`: writes the list under `meta:user_list`. -/
def metaSetUserList (c : Cache) (users : List String) : Cache :=
  cacheSet c "meta:user_list" (.jstrList users)

/-! ## Periodic offboarding job
(`internal/controller/periodicjobs/job_usernaut_offboarding.go`) -/

/-- Outcome of `ldapClient.GetUserLDAPData`: found, the `ErrNoUserFound`
sentinel, or another error. -/
inductive LdapRes where
  | found
  | notFound
  | err (msg : String)

/-- A configured backend client, reduced to the one operation the job
uses: `DeleteUser`, as an outcome oracle on the passed user id. -/
structure BClient where
  del : String → Except String Unit

/-- Backend types excluded from offboarding
(`skippedBackendTypes` in `offboardUserFromAllBackends`). -/
def skippedBackendTypes : List String := ["gitlab", "rover"]

/-- Character-level split (Go `strings.Split` with a one-character
separator), written by structural recursion so that it evaluates. -/
def splitOnCharAux (sep : Char) : List Char → List Char → List (List Char)
  | [], acc => [acc.reverse]
  | ch :: rest, acc =>
    if ch = sep then acc.reverse :: splitOnCharAux sep rest []
    else splitOnCharAux sep rest (ch :: acc)

def splitOnChar (s : String) (sep : Char) : List String :=
  (splitOnCharAux sep s.toList []).map List.asString

/-- ASCII lowercasing character by character (Go `strings.ToLower`),
written by structural recursion so that it evaluates. -/
def lowerStr (s : String) : String :=
  (s.toList.map Char.toLower).asString

/-- Extracts the backend type from a `{name}_{type}` key: split on
underscore, require at least two parts, lowercase the last part;
`none` models the `continue` on an invalid key. -/
def backendTypeOfKey (k : String) : Option String :=
  let parts := splitOnChar k (Char.ofNat 95)
  if parts.length < 2 then none
  else parts.getLast?.map lowerStr

/-- `offboardUserFromAllBackends`: walks the configured backend clients in
order, skips invalid keys and skipped types, calls `DeleteUser` with the
cached user's `ID` on the rest, collecting error strings; returns the
error list and the trace of `(backendKey, argument)` DeleteUser calls. -/
def offboardAllBackends : List (String × BClient) → User → List String × List (String × String)
  | [], _ => ([], [])
  | (key, cl) :: rest, u =>
    match backendTypeOfKey key with
    | none => offboardAllBackends rest u
    | some bt =>
      if bt ∈ skippedBackendTypes then offboardAllBackends rest u
      else
        let r := offboardAllBackends rest u
        match cl.del u.id with
        | .ok _ => (r.1, (key, u.id) :: r.2)
        | .error e => (("backend " ++ key ++ ": " ++ e) :: r.1, (key, u.id) :: r.2)

/-- `removeUserFromUserList`: reads the `user_list` key, filters the user
id out and writes the list back. -/
def removeUserFromUserList (c : Cache) (userID : String) : Except String Cache :=
  match cacheGet c "user_list" with
  | none => .error "failed to get user list from cache"
  | some v =>
    match unmarshalStrList v with
    | none => .error "failed to unmarshal user list"
    | some l => .ok (cacheSet c "user_list" (.jstrList (l.filter (fun x => x ≠ userID))))

/-- `offboardUser`: offboards from all backends; on success deletes the
user's cache entry and removes the id from `user_list` (a failure of the
list update is logged and ignored). -/
def offboardUser (c : Cache) (clients : List (String × BClient))
    (userKey userID : String) (u : User) :
    Except String Unit × Cache × List (String × String) :=
  let r := offboardAllBackends clients u
  if r.1.isEmpty then
    let c1 := cacheDelete c userKey
    let c2 := match removeUserFromUserList c1 userID with
      | .ok cc => cc
      | .error _ => c1
    (.ok (), c2, r.2)
  else (.error "failed to offboard user from backends", c, r.2)

/-- Result of processing one user key. -/
structure PUOut where
  result : Except String Unit
  cache : Cache
  deleteCalls : List (String × String)
  ldapCalls : List String

/-- `processUser`: loads and unmarshals the user's cache entry, checks
LDAP, and offboards when the directory reports NotFound. -/
def processUser (c : Cache) (ldap : String → LdapRes)
    (clients : List (String × BClient)) (userKey userID : String) : PUOut :=
  match cacheGet c userKey with
  | none => ⟨.error ("failed to get user " ++ userID ++ " from cache"), c, [], []⟩
  | some v =>
    match unmarshalUser v with
    | none => ⟨.error ("failed to get user " ++ userID ++ " from cache"), c, [], []⟩
    | some u =>
      match ldap userID with
      | .found => ⟨.ok (), c, [], [userID]⟩
      | .err _ => ⟨.error ("failed to check LDAP for user " ++ userID), c, [], [userID]⟩
      | .notFound =>
        let r := offboardUser c clients userKey userID u
        ⟨r.1, r.2.1, r.2.2, [userID]⟩

/-- Accumulated result of processing the whole user list. -/
structure ProcOut where
  cache : Cache
  errors : List String
  offboarded : Nat
  deleteCalls : List (String × String)
  ldapCalls : List String

/-- Test for the `user:` key prefix.  Go computes
`userID := strings.TrimPrefix(userKey, "user:")` and skips the key when
`userID == userKey`, which (for a non-empty prefix) holds exactly when
the prefix is absent. -/
def hasUserPre (k : String) : Bool :=
  "user:".toList.isPrefixOf k.toList

/-- The result of `strings.TrimPrefix(userKey, "user:")` when the prefix
is present. -/
def stripUserPre (k : String) : String :=
  (k.toList.drop 5).asString

/-- `processUsers`: iterates over all user keys; keys without the `user:`
prefix are skipped; a failing key contributes its error and iteration
continues; a succeeding key increments the offboarded counter. -/
def processUsers (ldap : String → LdapRes) (clients : List (String × BClient)) :
    Cache → List String → ProcOut
  | c, [] => ⟨c, [], 0, [], []⟩
  | c, k :: ks =>
    if hasUserPre k then
      let p := processUser c ldap clients k (stripUserPre k)
      let rest := processUsers ldap clients p.cache ks
      match p.result with
      | .ok _ =>
        ⟨rest.cache, rest.errors, rest.offboarded + 1,
         p.deleteCalls ++ rest.deleteCalls, p.ldapCalls ++ rest.ldapCalls⟩
      | .error e =>
        ⟨rest.cache, e :: rest.errors, rest.offboarded,
         p.deleteCalls ++ rest.deleteCalls, p.ldapCalls ++ rest.ldapCalls⟩
    else processUsers ldap clients c ks

/-- `getUserKeysFromCache`: the job loads its sweep list from the cache
key `user_list`. -/
def getUserKeysFromCache (c : Cache) : Except String (List String) :=
  match cacheGet c "user_list" with
  | none => .error "failed to scan cache for user keys"
  | some v =>
    match unmarshalStrList v with
    | none => .error "failed to unmarshal user keys"
    | some l => .ok l

/-- A failed run: either the user list could not be loaded, or some users
failed (the summary error carries all per-user errors). -/
inductive RunErr where
  | loadFailed (msg : String)
  | userErrors (errs : List String)
  deriving Repr, DecidableEq

/-- Observable outcome of one `Run` of the offboarding job. -/
structure RunOut where
  result : Except RunErr Unit
  cache : Cache
  errors : List String
  offboarded : Nat
  deleteCalls : List (String × String)
  ldapCalls : List String

/-- `Run` of the offboarding job: load user keys, process every user,
return nil iff no per-user error occurred. -/
def offboardingRun (c : Cache) (ldap : String → LdapRes)
    (clients : List (String × BClient)) : RunOut :=
  match getUserKeysFromCache c with
  | .error m => ⟨.error (.loadFailed m), c, [], 0, [], []⟩
  | .ok keys =>
    let p := processUsers ldap clients c keys
    ⟨if p.errors.isEmpty then .ok () else .error (.userErrors p.errors),
     p.cache, p.errors, p.offboarded, p.deleteCalls, p.ldapCalls⟩

/-! ## Group controller: removed-backend detection -/

/-- A backend declared in `spec.backends`. -/
structure SpecBackend where
  name : String
  btype : String
  deriving Repr, DecidableEq

/-- An entry of `status.backendsStatus`. -/
structure BackendStatusE where
  name : String
  btype : String
  status : Bool
  message : String
  deriving Repr, DecidableEq

/-- Modelled from the spec: `detectRemovedBackends` of the group
controller is not under src (only its tests are).  Per §4.1 step 3 it
diffs `spec.backends` against the prior `status.backendsStatus`, keeping
only prior entries with `status=true` and returning those whose
(name, type) pair no longer appears in the spec.  The table-driven tests
in the repository pin exactly this behaviour. -/
def detectRemovedBackends (specBackends : List SpecBackend)
    (statusBackends : List BackendStatusE) : List BackendStatusE :=
  statusBackends.filter (fun s =>
    s.status && !(specBackends.any (fun b => b.name == s.name && b.btype == s.btype)))

/-! ## Backend adapters: team maps -/

/-- A backend team record (`structs.Team`; the fields the adapters under
src populate). -/
structure Team where
  id : String
  name : String
  description : String
  role : String
  deriving Repr, DecidableEq

/-- One team item of a Fivetran teams-list response page
(`teams.TeamData` of the go-fivetran SDK, the fields the adapter reads). -/
structure TeamData where
  id : String
  name : String
  description : String
  role : String
  deriving Repr, DecidableEq

/-- `populateTeamsMap` of `pkg/clients/fivetran`: inserts every item
under its `Name`. -/
def populateTeamsMap (teamsMap : List (String × Team)) (items : List TeamData) :
    List (String × Team) :=
  items.foldl (fun m t => setA m t.name ⟨t.id, t.name, t.description, t.role⟩) teamsMap

/-- `FivetranClient.FetchAllTeams`: folds `populateTeamsMap` over the
response pages, starting from the empty map. -/
def fivetranFetchAllTeams (pages : List (List TeamData)) : List (String × Team) :=
  pages.foldl populateTeamsMap []

/-- One subgroup record of a GitLab list-subgroups response page (the
fields `GitlabClient.FetchAllTeams` reads). -/
structure GLGroup where
  id : Int
  name : String
  deriving Repr, DecidableEq

/-- `GitlabClient.FetchAllTeams`: keys every subgroup under its `Name`,
with the numeric id formatted as a string. -/
def gitlabFetchAllTeams (pages : List (List GLGroup)) : List (String × Team) :=
  pages.foldl (fun m gs =>
    gs.foldl (fun m' g => setA m' g.name ⟨toString g.id, g.name, "", ""⟩) m) []

/-- One record of an Atlan groups response
(`AtlanGroup` in `pkg/clients/atlan/teams.go`). -/
structure AtlanGroup where
  id : String
  name : String
  deriving Repr, DecidableEq

/-- `AtlanClient.FetchAllTeams`: keys every group record under its `ID`
(not its name). -/
def atlanFetchAllTeams (records : List AtlanGroup) : List (String × Team) :=
  records.foldl (fun m g => setA m g.id ⟨g.id, g.name, "", ""⟩) []

/-! ## Backend adapters: team membership operations

Each operation is embedded with the HTTP layer as an outcome oracle
(`send`): applying it stands for issuing one request.  The second
component of each result counts the requests actually issued. -/

/-- Go `strconv.Atoi`, as used by the GitLab adapter on user ids. -/
def atoi (s : String) : Option Int := s.toInt?

/-- Request loop of `GitlabClient.AddUserToTeam`: one AddGroupMember call
per user id, stopping at the first conversion failure, request error or
non-201 status. -/
def gitlabAddLoop (teamID : String) (send : String → Except String Nat) :
    List String → Except String Unit × Nat
  | [] => (.ok (), 0)
  | uid :: rest =>
    match atoi uid with
    | none => (.error "invalid user id", 0)
    | some _ =>
      match send uid with
      | .error e => (.error e, 1)
      | .ok st =>
        if st = 201 then
          let r := gitlabAddLoop teamID send rest
          (r.1, r.2 + 1)
        else (.error ("failed to add user " ++ uid ++ " to team " ++ teamID), 1)

/-- `GitlabClient.AddUserToTeam`: returns nil immediately when the
LDAP-sync flag is set or the user-id list is empty. -/
def gitlabAddUserToTeam (ldapSync : Bool) (teamID : String) (userIDs : List String)
    (send : String → Except String Nat) : Except String Unit × Nat :=
  if ldapSync || userIDs.isEmpty then (.ok (), 0)
  else gitlabAddLoop teamID send userIDs

/-- Request loop of `GitlabClient.RemoveUserFromTeam` (expects 204). -/
def gitlabRemoveLoop (teamID : String) (send : String → Except String Nat) :
    List String → Except String Unit × Nat
  | [] => (.ok (), 0)
  | uid :: rest =>
    match atoi uid with
    | none => (.error "invalid user id", 0)
    | some _ =>
      match send uid with
      | .error e => (.error e, 1)
      | .ok st =>
        if st = 204 then
          let r := gitlabRemoveLoop teamID send rest
          (r.1, r.2 + 1)
        else (.error ("failed to remove user " ++ uid ++ " from team " ++ teamID), 1)

/-- `GitlabClient.RemoveUserFromTeam`: returns nil immediately when the
LDAP-sync flag is set or the user-id list is empty. -/
def gitlabRemoveUserFromTeam (ldapSync : Bool) (teamID : String) (userIDs : List String)
    (send : String → Except String Nat) : Except String Unit × Nat :=
  if ldapSync || userIDs.isEmpty then (.ok (), 0)
  else gitlabRemoveLoop teamID send userIDs

/-- `SnowflakeClient.AddUserToTeam`: one grant request per user id (no
explicit short-circuit: an empty list simply runs the loop zero times);
accepts 200 or 201. -/
def snowflakeAddUserToTeam (teamID : String) (send : String → Except String Nat) :
    List String → Except String Unit × Nat
  | [] => (.ok (), 0)
  | uid :: rest =>
    match send uid with
    | .error e => (.error ("failed to add user " ++ uid ++ " to team " ++ teamID ++ ": " ++ e), 1)
    | .ok st =>
      if st = 200 ∨ st = 201 then
        let r := snowflakeAddUserToTeam teamID send rest
        (r.1, r.2 + 1)
      else (.error ("failed to add user " ++ uid ++ " to team " ++ teamID), 1)

/-- `SnowflakeClient.RemoveUserFromTeam`: one revoke request per user id;
accepts 200 or 204. -/
def snowflakeRemoveUserFromTeam (teamID : String) (send : String → Except String Nat) :
    List String → Except String Unit × Nat
  | [] => (.ok (), 0)
  | uid :: rest =>
    match send uid with
    | .error e => (.error ("failed to remove user " ++ uid ++ " from team " ++ teamID ++ ": " ++ e), 1)
    | .ok st =>
      if st = 200 ∨ st = 204 then
        let r := snowflakeRemoveUserFromTeam teamID send rest
        (r.1, r.2 + 1)
      else (.error ("failed to remove user " ++ uid ++ " from team " ++ teamID), 1)

/-- Request loop of `AtlanClient.AddUserToTeam` (accepts 200, 201, 204). -/
def atlanAddLoop (send : String → Except String Nat) :
    List String → Except String Unit × Nat
  | [] => (.ok (), 0)
  | uid :: rest =>
    match send uid with
    | .error e => (.error ("failed to add user " ++ uid ++ ": " ++ e), 1)
    | .ok st =>
      if st = 200 ∨ st = 201 ∨ st = 204 then
        let r := atlanAddLoop send rest
        (r.1, r.2 + 1)
      else (.error ("unexpected status when adding user"), 1)

/-- `AtlanClient.AddUserToTeam`: returns nil immediately when the
LDAP-sync flag is set or the user-id list is empty. -/
def atlanAddUserToTeam (ldapSync : Bool) (userIDs : List String)
    (send : String → Except String Nat) : Except String Unit × Nat :=
  if ldapSync || userIDs.isEmpty then (.ok (), 0)
  else atlanAddLoop send userIDs

/-- `AtlanClient.RemoveUserFromTeam`: returns nil immediately when the
LDAP-sync flag is set or the user-id list is empty; otherwise issues a
single bulk removal request (accepts 200 or 204). -/
def atlanRemoveUserFromTeam (ldapSync : Bool) (userIDs : List String)
    (send : Except String Nat) : Except String Unit × Nat :=
  if ldapSync || userIDs.isEmpty then (.ok (), 0)
  else
    match send with
    | .error e => (.error ("failed to remove users: " ++ e), 1)
    | .ok st =>
      if st = 200 ∨ st = 204 then (.ok (), 1)
      else (.error "unexpected status when removing users", 1)

/-! ## Fivetran adapter: CreateUser conflict recovery
(`pkg/clients/fivetran/users.go`) -/

/-- Substring test (Go `strings.Contains`). -/
def strContains (s pat : String) : Bool :=
  s.toList.tails.any (fun t => pat.toList.isPrefixOf t)

/-- Error data of a failed Fivetran invite: the error text and the
`CommonResponse.Code`. -/
structure FtError where
  msg : String
  code : String
  deriving Repr, DecidableEq

/-- The 409/conflict test of `FivetranClient.CreateUser`: the error text
contains `status code: 409` or the response code is `UserExists`. -/
def isConflict (e : FtError) : Bool :=
  strContains e.msg "status code: 409" || e.code == "UserExists"

/-- The username prefix of an email: the part before the first `@`, when
`@` occurs at a positive index (Go `strings.Index(email, "@") > 0`). -/
def emailUsername (email : String) : Option String :=
  match email.splitOn "@" with
  | p :: _ :: _ => if p = "" then none else some p
  | _ => none

/-- One lookup phase over the fetched `usersByEmail` map: the first entry
satisfying the predicate. -/
def findPhase (q : String × User → Bool) (users : List (String × User)) : Option User :=
  (users.find? q).map Prod.snd

/-- The existing-user search of the `CreateUser` conflict path, in the
order the code tries: exact key, case-insensitive key, case-insensitive
`Email` field, then (when the email has a username prefix)
case-insensitive key against the prefix and case-insensitive `UserName`
field against the prefix. -/
def findExistingUser (email : String) (users : List (String × User)) : Option User :=
  match findPhase (fun p => p.1 == email) users with
  | some u => some u
  | none =>
    match findPhase (fun p => p.1.toLower == email.toLower) users with
    | some u => some u
    | none =>
      match findPhase (fun p => p.2.email.toLower == email.toLower) users with
      | some u => some u
      | none =>
        match emailUsername email with
        | none => none
        | some un =>
          match findPhase (fun p => p.1.toLower == un.toLower) users with
          | some u => some u
          | none => findPhase (fun p => p.2.userName.toLower == un.toLower) users

/-- `FivetranClient.CreateUser`, abstracted over the invite outcome and
the `FetchAllUsers` re-fetch: a successful invite returns the new record;
on a conflict error the existing user is searched in the re-fetched map
and returned with no error; any other failure (including a failed
re-fetch or no match) returns the original error. -/
def fivetranCreateUser (email : String) (inviteRes : Except FtError User)
    (fetchRes : Except String (List (String × User))) : Except FtError User :=
  match inviteRes with
  | .ok u => .ok u
  | .error e =>
    if isConflict e then
      match fetchRes with
      | .error _ => .error e
      | .ok users =>
        match findExistingUser email users with
        | some existing => .ok existing
        | none => .error e
    else .error e

/-- The matching criteria named by the specification: an entry matches the
requested email exactly, case-insensitively (key or `Email` field), or by
the username prefix of the email (key or `UserName` field). -/
def userMatchesClaim (email : String) (p : String × User) : Bool :=
  p.1 == email || p.1.toLower == email.toLower || p.2.email.toLower == email.toLower ||
    (match emailUsername email with
     | some un => p.1.toLower == un.toLower || p.2.userName.toLower == un.toLower
     | none => false)

/-! ## Claim theorems -/

/-- Claim C4: for every group name and every GroupData value, calling
GroupStore.Set and then GroupStore.Get on the same group name returns a
GroupData with exactly the same member list and exactly the same backend
map. -/
theorem c4_groupstore_roundtrip (c : Cache) (groupName : String) (d : GroupData) :
    groupStoreGet (groupStoreSet c groupName d) groupName = .ok d := by
  simp [groupStoreGet, groupStoreSet, cacheGet, cacheSet, lookupA_setA_self, unmarshalGroup]

/-- Claim C10: `GroupStore.Get`, `UserStore.GetBackends`,
`UserGroupsStore.GetGroups` and `MetaStore.GetUserList` return an empty
result with a nil error when the underlying cache read fails, so a
missing entity is indistinguishable from one stored with empty
contents. -/
theorem c10_miss_reads_empty (c d : Cache) (groupName email : String)
    (hg : cacheGet c ("group:" ++ groupName) = none)
    (hu : cacheGet c ("user:" ++ email) = none)
    (hug : cacheGet c ("user:groups:" ++ email) = none)
    (hm : cacheGet c "meta:user_list" = none) :
    groupStoreGet c groupName = .ok ⟨[], []⟩ ∧
    userStoreGetBackends c email = .ok [] ∧
    userGroupsGetGroups c email = .ok [] ∧
    metaGetUserList c = .ok [] ∧
    groupStoreGet (groupStoreSet d groupName ⟨[], []⟩) groupName = groupStoreGet c groupName ∧
    metaGetUserList (metaSetUserList d []) = metaGetUserList c := by
  simp only [cacheGet] at hg hu hug hm
  refine ⟨?_, ?_, ?_, ?_, ?_, ?_⟩ <;>
    simp [groupStoreGet, userStoreGetBackends, userGroupsGetGroups, metaGetUserList,
      groupStoreSet, metaSetUserList, cacheGet, cacheSet, hg, hu, hug, hm,
      lookupA_setA_self, unmarshalGroup, unmarshalStrList]

/-- Witness for C10 on concrete stores: the empty cache misses all four
keys. -/
theorem c10_miss_reads_empty_witness :
    groupStoreGet [] "data-team" = .ok ⟨[], []⟩ ∧
    userStoreGetBackends [] "alice@x.com" = .ok [] ∧
    userGroupsGetGroups [] "alice@x.com" = .ok [] ∧
    metaGetUserList [] = .ok [] ∧
    groupStoreGet (groupStoreSet [] "data-team" ⟨[], []⟩) "data-team" = groupStoreGet [] "data-team" ∧
    metaGetUserList (metaSetUserList [] []) = metaGetUserList [] :=
  c10_miss_reads_empty [] [] "data-team" "alice@x.com" rfl rfl rfl rfl

/-- Claim C9: removing the last backend of a user or team entry, or the
last group of a user's reverse-index entry, deletes the whole cache entry
instead of writing back an empty collection. -/
theorem c9_no_empty_collection_persisted (c : Cache) :
    (∀ email bk m, cacheGet c ("user:" ++ email) = some (.jstrMap m) →
      eraseA m bk = [] →
      userStoreDeleteBackend c email bk = .ok (cacheDelete c ("user:" ++ email)) ∧
      cacheGet (cacheDelete c ("user:" ++ email)) ("user:" ++ email) = none) ∧
    (∀ teamName bk m, cacheGet c ("team:" ++ teamName) = some (.jstrMap m) →
      eraseA m bk = [] →
      teamStoreDeleteBackend c teamName bk = .ok (cacheDelete c ("team:" ++ teamName)) ∧
      cacheGet (cacheDelete c ("team:" ++ teamName)) ("team:" ++ teamName) = none) ∧
    (∀ email g l, cacheGet c ("user:groups:" ++ email) = some (.jstrList l) →
      l ≠ [] → l.filter (fun x => x ≠ g) = [] →
      userGroupsRemoveGroup c email g = .ok (cacheDelete c ("user:groups:" ++ email)) ∧
      cacheGet (cacheDelete c ("user:groups:" ++ email)) ("user:groups:" ++ email) = none) := by
  refine ⟨?_, ?_, ?_⟩
  · intro email bk m hget hrest
    constructor
    · simp [userStoreDeleteBackend, deleteBackendHelper, hget, unmarshalStrMap, hrest]
    · exact lookupA_eraseA_self c ("user:" ++ email)
  · intro teamName bk m hget hrest
    constructor
    · simp [teamStoreDeleteBackend, deleteBackendHelper, hget, unmarshalStrMap, hrest]
    · exact lookupA_eraseA_self c ("team:" ++ teamName)
  · intro email g l hget hne hrest
    have hgg : userGroupsGetGroups c email = .ok l := by
      simp only [userGroupsGetGroups, hget, unmarshalStrList]
    constructor
    · simp only [userGroupsRemoveGroup, hgg]
      rw [if_neg (by simpa [List.isEmpty_iff] using hne)]
      rw [hrest]
      simp
    · exact lookupA_eraseA_self c ("user:groups:" ++ email)

/-- Witness for C9: a user, a team and a reverse-index entry each holding
exactly one binding are removed entirely when that binding is deleted. -/
theorem c9_no_empty_collection_persisted_witness :
    userStoreDeleteBackend [("user:alice@x.com", .jstrMap [("fivetran_fivetran", "1")])]
        "alice@x.com" "fivetran_fivetran" =
      .ok (cacheDelete [("user:alice@x.com", .jstrMap [("fivetran_fivetran", "1")])] "user:alice@x.com") ∧
    cacheGet (cacheDelete [("user:alice@x.com", .jstrMap [("fivetran_fivetran", "1")])] "user:alice@x.com")
        "user:alice@x.com" = none :=
  (c9_no_empty_collection_persisted
      [("user:alice@x.com", .jstrMap [("fivetran_fivetran", "1")])]).1
    "alice@x.com" "fivetran_fivetran" [("fivetran_fivetran", "1")] rfl rfl

/-- Claim C3: detectRemovedBackends returns exactly the prior status
entries with status=true whose (name, type) pair is not in the current
spec; status=false entries are never returned, and the result is empty
when every status=true entry is still in the spec. -/
theorem c3_detect_removed_backends (specBackends : List SpecBackend)
    (statusBackends : List BackendStatusE) :
    (∀ e, e ∈ detectRemovedBackends specBackends statusBackends ↔
      (e ∈ statusBackends ∧ e.status = true ∧
        ¬ ∃ b ∈ specBackends, b.name = e.name ∧ b.btype = e.btype)) ∧
    (∀ e, e ∈ detectRemovedBackends specBackends statusBackends → e.status = true) ∧
    ((∀ e ∈ statusBackends, e.status = true →
        ∃ b ∈ specBackends, b.name = e.name ∧ b.btype = e.btype) →
      detectRemovedBackends specBackends statusBackends = []) := by
  have hmem : ∀ e, e ∈ detectRemovedBackends specBackends statusBackends ↔
      (e ∈ statusBackends ∧ e.status = true ∧
        ¬ ∃ b ∈ specBackends, b.name = e.name ∧ b.btype = e.btype) := by
    intro e
    simp only [detectRemovedBackends, List.mem_filter, Bool.and_eq_true,
      Bool.not_eq_true']
    constructor
    · rintro ⟨hm, hs, hany⟩
      refine ⟨hm, hs, ?_⟩
      rintro ⟨b, hb, hn, ht⟩
      have hqb : (b.name == e.name && b.btype == e.btype) = true := by
        simp [hn, ht]
      have : specBackends.any (fun b => b.name == e.name && b.btype == e.btype) = true :=
        List.any_eq_true.mpr ⟨b, hb, hqb⟩
      rw [this] at hany
      cases hany
    · rintro ⟨hm, hs, hnex⟩
      refine ⟨hm, hs, ?_⟩
      by_contra hcon
      have : specBackends.any (fun b => b.name == e.name && b.btype == e.btype) = true := by
        cases hb : specBackends.any (fun b => b.name == e.name && b.btype == e.btype) with
        | true => rfl
        | false => exact absurd hb hcon
      obtain ⟨b, hb, hqb⟩ := List.any_eq_true.mp this
      simp only [Bool.and_eq_true, beq_iff_eq] at hqb
      exact hnex ⟨b, hb, hqb.1, hqb.2⟩
  refine ⟨hmem, ?_, ?_⟩
  · intro e he
    exact ((hmem e).mp he).2.1
  · intro hall
    rcases h : detectRemovedBackends specBackends statusBackends with _ | ⟨e, rest⟩
    · rfl
    · exfalso
      have he : e ∈ detectRemovedBackends specBackends statusBackends := by
        rw [h]; exact List.mem_cons_self _ _
      rcases (hmem e).mp he with ⟨hm, hs, hnex⟩
      exact hnex (hall e hm hs)

/-- Witness for C3 at the repository's own test fixture: spec keeps only
rover, the prior status has rover/fivetran/snowflake all true, so exactly
fivetran and snowflake are detected as removed. -/
theorem c3_detect_removed_backends_witness :
    (⟨"fivetran", "fivetran", true, "Successful"⟩ : BackendStatusE) ∈
      detectRemovedBackends [⟨"rover", "rover"⟩]
        [⟨"rover", "rover", true, "Successful"⟩,
         ⟨"fivetran", "fivetran", true, "Successful"⟩,
         ⟨"snowflake", "snowflake", true, "Successful"⟩] :=
  ((c3_detect_removed_backends [⟨"rover", "rover"⟩]
      [⟨"rover", "rover", true, "Successful"⟩,
       ⟨"fivetran", "fivetran", true, "Successful"⟩,
       ⟨"snowflake", "snowflake", true, "Successful"⟩]).1
    ⟨"fivetran", "fivetran", true, "Successful"⟩).mpr
    (by refine ⟨by decide, rfl, ?_⟩
        rintro ⟨b, hb, hn, ht⟩
        simp only [List.mem_singleton] at hb
        subst hb
        exact absurd hn (by decide))

/-- Claim C5 counterexample: the Atlan adapter's FetchAllTeams keys its
result by group ID, so with a group whose id is 123 and name data-team
the key 123 differs from the stored record's Name. -/
theorem c5_counterexample :
    ("123", (⟨"123", "data-team", "", ""⟩ : Team)) ∈
      atlanFetchAllTeams [⟨"123", "data-team"⟩] ∧
    ("123" : String) ≠ (⟨"123", "data-team", "", ""⟩ : Team).name := by
  constructor
  · simp [atlanFetchAllTeams, setA]
  · decide

/-- Invariant of a fold of keyed insertions: if every inserted pair and
every initial pair satisfies `P`, so does every pair of the result. -/
theorem mem_foldl_setA {β : Type} (P : String × Team → Prop)
    (key : β → String) (val : β → Team) (hP : ∀ b, P (key b, val b)) :
    ∀ (items : List β) (m : List (String × Team)), (∀ p ∈ m, P p) →
      ∀ p ∈ items.foldl (fun acc b => setA acc (key b) (val b)) m, P p := by
  intro items
  induction items with
  | nil => intro m hm p hp; exact hm p hp
  | cons b bs ih =>
    intro m hm p hp
    refine ih _ ?_ p hp
    intro q hq
    rcases mem_setA hq with h | h
    · exact hm q h
    · rw [h]; exact hP b

/-- Claim C5 amended: the Fivetran and GitLab adapters key FetchAllTeams
by team name, while the Atlan adapter keys it by group ID (each key
equals the ID field of the record stored under it). -/
theorem c5_amended (pagesF : List (List TeamData)) (pagesG : List (List GLGroup))
    (records : List AtlanGroup) :
    (∀ k t, (k, t) ∈ fivetranFetchAllTeams pagesF → k = t.name) ∧
    (∀ k t, (k, t) ∈ gitlabFetchAllTeams pagesG → k = t.name) ∧
    (∀ k t, (k, t) ∈ atlanFetchAllTeams records → k = t.id) := by
  refine ⟨?_, ?_, ?_⟩
  · have hstep : ∀ (m : List (String × Team)), (∀ p ∈ m, p.1 = p.2.name) →
        ∀ (items : List TeamData) p, p ∈ populateTeamsMap m items → p.1 = p.2.name := by
      intro m hm items p hp
      unfold populateTeamsMap at hp
      exact mem_foldl_setA (fun p => p.1 = p.2.name) (fun t => t.name)
        (fun t => ⟨t.id, t.name, t.description, t.role⟩) (fun _ => rfl) items m hm p hp
    have : ∀ (pages : List (List TeamData)) (m : List (String × Team)),
        (∀ p ∈ m, p.1 = p.2.name) →
        ∀ p ∈ pages.foldl populateTeamsMap m, p.1 = p.2.name := by
      intro pages
      induction pages with
      | nil => intro m hm p hp; exact hm p hp
      | cons pg pgs ih =>
        intro m hm p hp
        exact ih _ (fun q hq => hstep m hm pg q hq) p hp
    intro k t h
    exact this pagesF [] (by simp) (k, t) h
  · have hstep : ∀ (m : List (String × Team)), (∀ p ∈ m, p.1 = p.2.name) →
        ∀ (gs : List GLGroup) p,
          p ∈ gs.foldl (fun m' g => setA m' g.name ⟨toString g.id, g.name, "", ""⟩) m →
          p.1 = p.2.name := by
      intro m hm gs p hp
      exact mem_foldl_setA (fun p => p.1 = p.2.name) (fun g => g.name)
        (fun g => ⟨toString g.id, g.name, "", ""⟩) (fun _ => rfl) gs m hm p hp
    have : ∀ (pages : List (List GLGroup)) (m : List (String × Team)),
        (∀ p ∈ m, p.1 = p.2.name) →
        ∀ p ∈ pages.foldl (fun m gs =>
            gs.foldl (fun m' g => setA m' g.name ⟨toString g.id, g.name, "", ""⟩) m) m,
          p.1 = p.2.name := by
      intro pages
      induction pages with
      | nil => intro m hm p hp; exact hm p hp
      | cons pg pgs ih =>
        intro m hm p hp
        exact ih _ (fun q hq => hstep m hm pg q hq) p hp
    intro k t h
    exact this pagesG [] (by simp) (k, t) h
  · intro k t h
    unfold atlanFetchAllTeams at h
    exact mem_foldl_setA (fun p => p.1 = p.2.id) (fun g => g.id)
      (fun g => ⟨g.id, g.name, "", ""⟩) (fun _ => rfl) records [] (by simp) (k, t) h

/-- Witness for C5 amended: a one-page Fivetran response keyed by name
and a one-record Atlan response keyed by id. -/
theorem c5_amended_witness :
    (∀ k t, (k, t) ∈ fivetranFetchAllTeams [[⟨"t1", "data-team", "", ""⟩]] → k = t.name) ∧
    (∀ k t, (k, t) ∈ atlanFetchAllTeams [⟨"123", "data-team"⟩] → k = t.id) :=
  ⟨(c5_amended [[⟨"t1", "data-team", "", ""⟩]] [] [⟨"123", "data-team"⟩]).1,
   (c5_amended [[⟨"t1", "data-team", "", ""⟩]] [] [⟨"123", "data-team"⟩]).2.2⟩

/-- Claim C7: for every team id, AddUserToTeam and RemoveUserFromTeam of
the GitLab, Snowflake and Atlan adapters return nil without issuing any
backend request when the user-id list is empty, and the GitLab adapter
does the same whenever its LDAP-sync flag is set, regardless of the
list. -/
theorem c7_membership_short_circuit (teamID : String) (b : Bool)
    (send : String → Except String Nat) (resp : Except String Nat)
    (userIDs : List String) :
    gitlabAddUserToTeam b teamID [] send = (.ok (), 0) ∧
    gitlabRemoveUserFromTeam b teamID [] send = (.ok (), 0) ∧
    snowflakeAddUserToTeam teamID send [] = (.ok (), 0) ∧
    snowflakeRemoveUserFromTeam teamID send [] = (.ok (), 0) ∧
    atlanAddUserToTeam b [] send = (.ok (), 0) ∧
    atlanRemoveUserFromTeam b [] resp = (.ok (), 0) ∧
    gitlabAddUserToTeam true teamID userIDs send = (.ok (), 0) ∧
    gitlabRemoveUserFromTeam true teamID userIDs send = (.ok (), 0) := by
  cases b <;>
    exact ⟨rfl, rfl, rfl, rfl, rfl, rfl, rfl, rfl⟩

/-- A successful lookup phase returns a member of the map satisfying the
phase predicate. -/
theorem findPhase_some {q : String × User → Bool} {users : List (String × User)} {u : User}
    (h : findPhase q users = some u) : ∃ k, (k, u) ∈ users ∧ q (k, u) = true := by
  unfold findPhase at h
  rcases hf : users.find? q with _ | p
  · rw [hf] at h; cases h
  · obtain ⟨k, v⟩ := p
    rw [hf] at h
    simp at h
    refine ⟨k, ?_, ?_⟩
    · have hm := List.mem_of_find?_eq_some hf
      rwa [h] at hm
    · have hq := List.find?_some hf
      rwa [h] at hq

/-- A failed lookup phase means no entry satisfies the phase predicate. -/
theorem findPhase_none {q : String × User → Bool} {users : List (String × User)}
    (h : findPhase q users = none) : ∀ p ∈ users, q p = false := by
  unfold findPhase at h
  rcases hf : users.find? q with _ | p
  · intro p hp
    exact Bool.eq_false_iff.mpr (List.find?_eq_none.mp hf p hp)
  · rw [hf] at h
    simp at h

/-- Claim C6: when the Fivetran CreateUser invite fails with a
409/conflict and the re-fetched user map contains an entry matching the
requested email exactly, case-insensitively, or by the username prefix
of the email, CreateUser returns that existing record with no error. -/
theorem c6_fivetran_createuser_conflict (email : String) (e : FtError)
    (users : List (String × User))
    (hc : isConflict e = true)
    (hm : users.any (userMatchesClaim email) = true) :
    ∃ u, fivetranCreateUser email (.error e) (.ok users) = .ok u ∧
      ∃ k, (k, u) ∈ users ∧ userMatchesClaim email (k, u) = true := by
  have hres : ∀ u, findExistingUser email users = some u →
      fivetranCreateUser email (.error e) (.ok users) = .ok u := by
    intro u hu
    have hstep : fivetranCreateUser email (.error e) (.ok users) =
        if isConflict e then
          (match findExistingUser email users with
           | some existing => Except.ok existing
           | none => Except.error e)
        else .error e := rfl
    rw [hstep]
    simp [hc, hu]
  rcases h1 : findPhase (fun p => p.1 == email) users with _ | u
  case some =>
    obtain ⟨k, hk, hq⟩ := findPhase_some h1
    refine ⟨u, hres u ?_, k, hk, ?_⟩
    · simp only [findExistingUser, h1]
    · simp only [userMatchesClaim, hq, Bool.true_or]
  case none =>
  rcases h2 : findPhase (fun p => p.1.toLower == email.toLower) users with _ | u
  case some =>
    obtain ⟨k, hk, hq⟩ := findPhase_some h2
    refine ⟨u, hres u ?_, k, hk, ?_⟩
    · simp only [findExistingUser, h1, h2]
    · simp only [userMatchesClaim, hq, Bool.true_or, Bool.or_true]
  case none =>
  rcases h3 : findPhase (fun p => p.2.email.toLower == email.toLower) users with _ | u
  case some =>
    obtain ⟨k, hk, hq⟩ := findPhase_some h3
    refine ⟨u, hres u ?_, k, hk, ?_⟩
    · simp only [findExistingUser, h1, h2, h3]
    · simp only [userMatchesClaim, hq, Bool.true_or, Bool.or_true]
  case none =>
  rcases hun : emailUsername email with _ | un
  case none =>
    exfalso
    obtain ⟨p, hp, hclaim⟩ := List.any_eq_true.mp hm
    have f1 := findPhase_none h1 p hp
    have f2 := findPhase_none h2 p hp
    have f3 := findPhase_none h3 p hp
    simp only [userMatchesClaim, hun, f1, f2, f3, Bool.or_self, Bool.false_or] at hclaim
    exact Bool.false_ne_true hclaim
  case some =>
  rcases h4 : findPhase (fun p => p.1.toLower == un.toLower) users with _ | u
  case some =>
    obtain ⟨k, hk, hq⟩ := findPhase_some h4
    refine ⟨u, hres u ?_, k, hk, ?_⟩
    · simp only [findExistingUser, h1, h2, h3, hun, h4]
    · simp only [userMatchesClaim, hun, hq, Bool.true_or, Bool.or_true]
  case none =>
  rcases h5 : findPhase (fun p => p.2.userName.toLower == un.toLower) users with _ | u
  case some =>
    obtain ⟨k, hk, hq⟩ := findPhase_some h5
    refine ⟨u, hres u ?_, k, hk, ?_⟩
    · simp only [findExistingUser, h1, h2, h3, hun, h4, h5]
    · simp only [userMatchesClaim, hun, hq, Bool.or_true]
  case none =>
    exfalso
    obtain ⟨p, hp, hclaim⟩ := List.any_eq_true.mp hm
    have f1 := findPhase_none h1 p hp
    have f2 := findPhase_none h2 p hp
    have f3 := findPhase_none h3 p hp
    have f4 := findPhase_none h4 p hp
    have f5 := findPhase_none h5 p hp
    simp only [userMatchesClaim, hun, f1, f2, f3, f4, f5, Bool.or_self, Bool.false_or] at hclaim
    exact Bool.false_ne_true hclaim

/-- Witness for C6: a 409 invite failure for alice at x.com, with the
re-fetched map containing that exact address, yields the existing record
with no error. -/
theorem c6_fivetran_createuser_conflict_witness :
    ∃ u, fivetranCreateUser "alice@x.com"
        (.error ⟨"error sending request, status code: 409", ""⟩)
        (.ok [("alice@x.com", ⟨"u1", "alice@x.com", "", "", "", "", ""⟩)]) = .ok u ∧
      ∃ k, (k, u) ∈ [("alice@x.com", ⟨"u1", "alice@x.com", "", "", "", "", ""⟩)] ∧
        userMatchesClaim "alice@x.com" (k, u) = true :=
  c6_fivetran_createuser_conflict "alice@x.com"
    ⟨"error sending request, status code: 409", ""⟩
    [("alice@x.com", ⟨"u1", "alice@x.com", "", "", "", "", ""⟩)]
    (by decide) (by decide)

/-- Claim C2 counterexample: after MetaStore.SetUserList writes a
non-empty list to its key `meta:user_list` in an otherwise empty cache,
the offboarding job fails to load any user list, because it reads the
different key `user_list`. -/
theorem c2_counterexample :
    cacheGet (metaSetUserList [] ["user:alice"]) "meta:user_list" =
      some (.jstrList ["user:alice"]) ∧
    getUserKeysFromCache (metaSetUserList [] ["user:alice"]) =
      .error "failed to scan cache for user keys" ∧
    (offboardingRun (metaSetUserList [] ["user:alice"]) (fun _ => .found) []).result =
      .error (.loadFailed "failed to scan cache for user keys") :=
  ⟨rfl, rfl, rfl⟩

/-- Claim C2 amended: the job loads its sweep list from the cache key
`user_list` (not `meta:user_list`, which MetaStore.SetUserList writes),
and when that list is empty the run exits successfully without querying
the directory or calling any backend. -/
theorem c2_amended (c : Cache) (ldap : String → LdapRes)
    (clients : List (String × BClient)) (l : List String)
    (h : cacheGet c "user_list" = some (.jstrList l)) :
    getUserKeysFromCache c = .ok l ∧
    (l = [] →
      (offboardingRun c ldap clients).result = .ok () ∧
      (offboardingRun c ldap clients).ldapCalls = [] ∧
      (offboardingRun c ldap clients).deleteCalls = [] ∧
      (offboardingRun c ldap clients).cache = c) := by
  have hg : getUserKeysFromCache c = .ok l := by
    simp only [getUserKeysFromCache, h, unmarshalStrList]
  refine ⟨hg, ?_⟩
  rintro rfl
  simp [offboardingRun, hg, processUsers]

/-- Witness for C2 amended: a cache whose `user_list` holds the empty
list makes the run succeed with no directory or backend calls. -/
theorem c2_amended_witness :
    getUserKeysFromCache [("user_list", .jstrList [])] = .ok [] ∧
    (([] : List String) = [] →
      (offboardingRun [("user_list", .jstrList [])] (fun _ => .found) []).result = .ok () ∧
      (offboardingRun [("user_list", .jstrList [])] (fun _ => .found) []).ldapCalls = [] ∧
      (offboardingRun [("user_list", .jstrList [])] (fun _ => .found) []).deleteCalls = [] ∧
      (offboardingRun [("user_list", .jstrList [])] (fun _ => .found) []).cache =
        [("user_list", .jstrList [])]) :=
  c2_amended [("user_list", .jstrList [])] (fun _ => .found) [] [] rfl

/-- Whether the offboarding job issues a DeleteUser call for a configured
backend client key: the key splits into at least two underscore-separated
parts and its lowercased last part is not a skipped type. -/
def isOffboardedClient (key : String) : Bool :=
  match backendTypeOfKey key with
  | none => false
  | some bt => !(decide (bt ∈ skippedBackendTypes))

/-- The DeleteUser trace of `offboardUserFromAllBackends` is exactly one
call per configured non-skipped client, always with the cached user's
`ID` as argument. -/
theorem offboardAllBackends_calls (clients : List (String × BClient)) (u : User) :
    (offboardAllBackends clients u).2 =
      (clients.filter (fun p => isOffboardedClient p.1)).map (fun p => (p.1, u.id)) := by
  induction clients with
  | nil => rfl
  | cons hd rest ih =>
    obtain ⟨key, cl⟩ := hd
    simp only [offboardAllBackends]
    cases hbt : backendTypeOfKey key with
    | none => simp [List.filter_cons, isOffboardedClient, hbt, ih]
    | some bt =>
      by_cases hskip : bt ∈ skippedBackendTypes
      · simp [List.filter_cons, isOffboardedClient, hbt, hskip, ih]
      · cases hdel : cl.del u.id <;>
          simp [List.filter_cons, isOffboardedClient, hbt, hskip, ih, hdel]

/-- Claim C1 counterexample: user list entry `user:alice@x.com`, cached
value the backend map `fiv_fivetran → backend-42` (type `fivetran`, not
skipped), directory reports NotFound, and `fiv_fivetran` is a configured
client.  The claim requires a DeleteUser call with `backend-42`; the run
instead calls DeleteUser with the empty string (the `ID` field of the
decoded user object) and never passes the mapped backend user id. -/
theorem c1_counterexample :
    (offboardingRun
        [("user_list", .jstrList ["user:alice@x.com"]),
         ("user:alice@x.com", .jstrMap [("fiv_fivetran", "backend-42")])]
        (fun _ => .notFound)
        [("fiv_fivetran", ⟨fun _ => .ok ()⟩)]).deleteCalls = [("fiv_fivetran", "")] ∧
    ("fiv_fivetran", "backend-42") ∉
      (offboardingRun
          [("user_list", .jstrList ["user:alice@x.com"]),
           ("user:alice@x.com", .jstrMap [("fiv_fivetran", "backend-42")])]
          (fun _ => .notFound)
          [("fiv_fivetran", ⟨fun _ => .ok ()⟩)]).deleteCalls ∧
    lookupA [("fiv_fivetran", "backend-42")] "fiv_fivetran" = some "backend-42" ∧
    backendTypeOfKey "fiv_fivetran" = some "fivetran" ∧
    "fivetran" ∉ skippedBackendTypes := by
  exact ⟨rfl, by decide, rfl, by decide, by decide⟩

/-- Claim C1 amended: for a directory-NotFound user, `offboardUser` calls
DeleteUser exactly once per configured backend client whose type (the
lowercased last underscore-separated part of its key) is not in the skip
set, each time with the `ID` field of the decoded cached user object (not
a per-backend id); when all those deletes succeed, the user's cache entry
is deleted and the user id is filtered out of the job's `user_list`
entry. -/
theorem c1_amended (c : Cache) (clients : List (String × BClient))
    (userKey userID : String) (u : User) (l : List String)
    (herrs : (offboardAllBackends clients u).1 = [])
    (hlist : cacheGet c "user_list" = some (.jstrList l))
    (hkey : userKey ≠ "user_list") :
    (offboardUser c clients userKey userID u).2.2 =
      (clients.filter (fun p => isOffboardedClient p.1)).map (fun p => (p.1, u.id)) ∧
    (offboardUser c clients userKey userID u).1 = .ok () ∧
    cacheGet (offboardUser c clients userKey userID u).2.1 userKey = none ∧
    cacheGet (offboardUser c clients userKey userID u).2.1 "user_list" =
      some (.jstrList (l.filter (fun x => x ≠ userID))) ∧
    userID ∉ l.filter (fun x => x ≠ userID) := by
  have hob : (offboardAllBackends clients u).1.isEmpty = true := by
    rw [herrs]; rfl
  have hc1 : cacheGet (cacheDelete c userKey) "user_list" = some (.jstrList l) := by
    show lookupA (eraseA c userKey) "user_list" = _
    rw [lookupA_eraseA_ne c userKey "user_list" hkey]
    exact hlist
  have hrem : removeUserFromUserList (cacheDelete c userKey) userID =
      .ok (cacheSet (cacheDelete c userKey) "user_list"
        (.jstrList (l.filter (fun x => x ≠ userID)))) := by
    simp only [removeUserFromUserList, hc1, unmarshalStrList]
  have hoff : offboardUser c clients userKey userID u =
      (.ok (), cacheSet (cacheDelete c userKey) "user_list"
        (.jstrList (l.filter (fun x => x ≠ userID))), (offboardAllBackends clients u).2) := by
    simp only [offboardUser, hob, if_true, hrem]
  rw [hoff]
  refine ⟨offboardAllBackends_calls clients u, rfl, ?_, ?_, ?_⟩
  · show lookupA (setA (eraseA c userKey) "user_list" _) userKey = none
    rw [lookupA_setA_ne _ "user_list" userKey _ (Ne.symm hkey)]
    exact lookupA_eraseA_self c userKey
  · exact lookupA_setA_self _ "user_list" _
  · simp

/-- Witness for C1 amended: one configured fivetran client whose delete
succeeds; the cached user object has ID 42, the user list holds only this
user; after offboarding the entry is gone and the list is empty. -/
theorem c1_amended_witness :
    (offboardUser [("user_list", .jstrList ["alice@x.com"])]
        [("fiv_fivetran", ⟨fun _ => .ok ()⟩)] "user:alice@x.com" "alice@x.com"
        { User.zero with id := "42" }).2.2 =
      ([("fiv_fivetran", (⟨fun _ => .ok ()⟩ : BClient))].filter
        (fun p => isOffboardedClient p.1)).map (fun p => (p.1, "42")) ∧
    (offboardUser [("user_list", .jstrList ["alice@x.com"])]
        [("fiv_fivetran", ⟨fun _ => .ok ()⟩)] "user:alice@x.com" "alice@x.com"
        { User.zero with id := "42" }).1 = .ok () ∧
    cacheGet (offboardUser [("user_list", .jstrList ["alice@x.com"])]
        [("fiv_fivetran", ⟨fun _ => .ok ()⟩)] "user:alice@x.com" "alice@x.com"
        { User.zero with id := "42" }).2.1 "user:alice@x.com" = none ∧
    cacheGet (offboardUser [("user_list", .jstrList ["alice@x.com"])]
        [("fiv_fivetran", ⟨fun _ => .ok ()⟩)] "user:alice@x.com" "alice@x.com"
        { User.zero with id := "42" }).2.1 "user_list" =
      some (.jstrList (["alice@x.com"].filter (fun x => x ≠ "alice@x.com"))) ∧
    "alice@x.com" ∉ ["alice@x.com"].filter (fun x => x ≠ "alice@x.com") :=
  c1_amended [("user_list", .jstrList ["alice@x.com"])]
    [("fiv_fivetran", ⟨fun _ => .ok ()⟩)] "user:alice@x.com" "alice@x.com"
    { User.zero with id := "42" } ["alice@x.com"] rfl rfl (by decide)

/-- Every `user:`-prefixed entry of the user list contributes exactly one
outcome (error or offboard count) to the run, independent of other
entries: the loop never aborts early. -/
theorem processUsers_outcomes (ldap : String → LdapRes)
    (clients : List (String × BClient)) :
    ∀ (keys : List String) (c : Cache),
      (processUsers ldap clients c keys).errors.length +
        (processUsers ldap clients c keys).offboarded =
      (keys.filter (fun k => hasUserPre k)).length := by
  intro keys
  induction keys with
  | nil => intro c; rfl
  | cons k ks ih =>
    intro c
    by_cases hk : hasUserPre k = true
    · rcases hr : (processUser c ldap clients k (stripUserPre k)).result with _ | e
      · simp only [processUsers, hk, if_true, hr, List.filter_cons]
        have := ih (processUser c ldap clients k (stripUserPre k)).cache
        simp only [List.length_cons]
        omega
      · simp only [processUsers, hk, if_true, hr, List.filter_cons]
        have := ih (processUser c ldap clients k (stripUserPre k)).cache
        simp only [List.length_cons]
        omega
    · have hk' : hasUserPre k = false := Bool.eq_false_iff.mpr hk
      simp only [processUsers, hk', Bool.false_eq_true, if_false, List.filter_cons]
      exact ih c

/-- Claim C8: given a loadable user list, one run processes every
user-prefixed entry even when earlier entries fail (each contributes
exactly one outcome), Run returns nil exactly when no per-user error
occurred, and otherwise returns a single error carrying all per-user
errors. -/
theorem c8_run_aggregates_errors (c : Cache) (ldap : String → LdapRes)
    (clients : List (String × BClient)) (keys : List String)
    (h : cacheGet c "user_list" = some (.jstrList keys)) :
    ((offboardingRun c ldap clients).result = .ok () ↔
      (offboardingRun c ldap clients).errors = []) ∧
    ((offboardingRun c ldap clients).errors ≠ [] →
      (offboardingRun c ldap clients).result =
        .error (.userErrors (offboardingRun c ldap clients).errors)) ∧
    (offboardingRun c ldap clients).errors.length +
        (offboardingRun c ldap clients).offboarded =
      (keys.filter (fun k => hasUserPre k)).length := by
  have hg : getUserKeysFromCache c = .ok keys := by
    simp only [getUserKeysFromCache, h, unmarshalStrList]
  have hrun : offboardingRun c ldap clients =
      ⟨if (processUsers ldap clients c keys).errors.isEmpty then .ok ()
        else .error (.userErrors (processUsers ldap clients c keys).errors),
       (processUsers ldap clients c keys).cache,
       (processUsers ldap clients c keys).errors,
       (processUsers ldap clients c keys).offboarded,
       (processUsers ldap clients c keys).deleteCalls,
       (processUsers ldap clients c keys).ldapCalls⟩ := by
    simp only [offboardingRun, hg]
  rw [hrun]
  refine ⟨?_, ?_, processUsers_outcomes ldap clients keys c⟩
  · by_cases he : (processUsers ldap clients c keys).errors = []
    · simp [he]
    · have hne : (processUsers ldap clients c keys).errors.isEmpty = false := by
        simpa [List.isEmpty_iff] using he
      simp [hne, he]
  · intro he
    have hne : (processUsers ldap clients c keys).errors.isEmpty = false := by
      simpa [List.isEmpty_iff] using he
    simp [hne]

/-- Witness for C8: a two-entry list whose first entry has no cache data
(fails) and whose second entry is active in LDAP (succeeds), plus one
prefix-less entry that is skipped: one error, one success, and Run
returns the summary error. -/
theorem c8_run_aggregates_errors_witness :
    ((offboardingRun
        [("user_list", .jstrList ["user:missing", "user:ok", "garbage"]),
         ("user:ok", .juser User.zero)] (fun _ => .found) []).result = .ok () ↔
      (offboardingRun
        [("user_list", .jstrList ["user:missing", "user:ok", "garbage"]),
         ("user:ok", .juser User.zero)] (fun _ => .found) []).errors = []) ∧
    ((offboardingRun
        [("user_list", .jstrList ["user:missing", "user:ok", "garbage"]),
         ("user:ok", .juser User.zero)] (fun _ => .found) []).errors ≠ [] →
      (offboardingRun
        [("user_list", .jstrList ["user:missing", "user:ok", "garbage"]),
         ("user:ok", .juser User.zero)] (fun _ => .found) []).result =
        .error (.userErrors (offboardingRun
          [("user_list", .jstrList ["user:missing", "user:ok", "garbage"]),
           ("user:ok", .juser User.zero)] (fun _ => .found) []).errors)) ∧
    (offboardingRun
        [("user_list", .jstrList ["user:missing", "user:ok", "garbage"]),
         ("user:ok", .juser User.zero)] (fun _ => .found) []).errors.length +
      (offboardingRun
        [("user_list", .jstrList ["user:missing", "user:ok", "garbage"]),
         ("user:ok", .juser User.zero)] (fun _ => .found) []).offboarded =
      (["user:missing", "user:ok", "garbage"].filter (fun k => hasUserPre k)).length :=
  c8_run_aggregates_errors
    [("user_list", .jstrList ["user:missing", "user:ok", "garbage"]),
     ("user:ok", .juser User.zero)] (fun _ => .found) []
    ["user:missing", "user:ok", "garbage"] rfl

end Usernaut
